import Mathlib

/-!
Shallow embedding of the lixenwraith/config Go library: the registry of
configuration items, source precedence, value computation, registration,
unregistration, CLI argument parsing, file/CLI loaders, decoding, and the
watch subscription limit.  Go strings are modelled as lists of characters,
Go maps as association lists (first binding wins on lookup, insertion
replaces in place), and Go `any` values as the inductive type `Value`.
A method that mutates its receiver and may also return an error is
modelled as a function returning the new state together with an optional
error message (`none` means success).
-/

set_option autoImplicit false

namespace Config

/-- Go strings, modelled as lists of characters. -/
abbrev GoStr := List Char

/-- Go `any` values that flow through the configuration registry:
nil, strings, booleans, integers, and nested string-keyed maps. -/
inductive Value where
  | vNil : Value
  | vStr : GoStr → Value
  | vBool : Bool → Value
  | vInt : Int → Value
  | vMap : List (GoStr × Value) → Value

/-- The Go test x == nil on an any value. -/
def Value.isNil : Value → Bool
  | Value.vNil => true
  | _ => false

/-- A Go map from string to Value, modelled as an association list. -/
abbrev GoMap := List (GoStr × Value)

/-- First-match lookup in an association list, as Go map indexing. -/
def alookup {β : Type} (m : List (GoStr × β)) (k : GoStr) : Option β :=
  match m with
  | [] => none
  | (k0, v0) :: rest => if k0 = k then some v0 else alookup rest k

/-- Go map assignment: replace the binding in place if the key is
present, otherwise append the new binding. -/
def ainsert {β : Type} (m : List (GoStr × β)) (k : GoStr) (v : β) : List (GoStr × β) :=
  match m with
  | [] => [(k, v)]
  | (k0, v0) :: rest => if k0 = k then (k0, v) :: rest else (k0, v0) :: ainsert rest k v

/-- Go strings.Split with a single-character separator.  Splitting the
empty string yields one empty segment, as in Go. -/
def goSplit (sep : Char) (s : GoStr) : List GoStr :=
  match s with
  | [] => [[]]
  | c :: rest =>
    let tail := goSplit sep rest
    if c = sep then [] :: tail
    else match tail with
      | [] => [[c]]
      | seg :: segs => (c :: seg) :: segs

/-- Go strings.HasPrefix. -/
def goStartsWith (pre s : GoStr) : Bool :=
  pre.isPrefixOf s

/-- isValidKeySegment from helper.go: non-empty, no dots, and every
character an ASCII letter, digit, underscore or dash. -/
def isValidKeySegment (s : GoStr) : Bool :=
  if s.length = 0 then false
  else if s.contains '.' then false
  else s.all fun r =>
    let isLetter := (('a' ≤ r ∧ r ≤ 'z') ∨ ('A' ≤ r ∧ r ≤ 'Z'))
    let isDigit := ('0' ≤ r ∧ r ≤ '9')
    let isUnderscore := r = '_'
    let isDash := r = '-'
    decide (isLetter ∨ isDigit ∨ isUnderscore ∨ isDash)

/-- The source identifiers; Go declares Source as a string type. -/
abbrev Source := GoStr

def sourceDefault : Source := "default".data
def sourceFile : Source := "file".data
def sourceEnv : Source := "env".data
def sourceCLI : Source := "cli".data

/-- Max config item value size (MaxValueSize = 1024*1024 bytes). -/
def maxValueSize : Nat := 1024 * 1024

/-- configItem from config.go: the registered default, the per-source
entries, and the computed current value. -/
structure ConfigItem where
  defaultValue : Value
  values : List (Source × Value)
  currentValue : Value

/-- LoadOptions, restricted to the field the claims concern: the
precedence list (first = highest priority). -/
structure LoadOptions where
  sources : List Source

/-- DefaultLoadOptions from loader.go. -/
def defaultLoadOptions : LoadOptions :=
  { sources := [sourceCLI, sourceEnv, sourceFile, sourceDefault] }

/-- The Config registry state: registered items, active load options,
and the per-source data caches kept by the loaders. -/
structure Cfg where
  items : List (GoStr × ConfigItem)
  options : LoadOptions
  fileData : GoMap
  envData : GoMap
  cliData : GoMap

/-- A fresh Config with no registrations, default options. -/
def newCfg : Cfg :=
  { items := [], options := defaultLoadOptions
    fileData := [], envData := [], cliData := [] }

/-- computeValue from config.go: walk the precedence list and return the
first per-source entry that exists and is non-nil; otherwise the
registered default. -/
def computeValue (sources : List Source) (item : ConfigItem) : Value :=
  match sources with
  | [] => item.defaultValue
  | s :: rest =>
    match alookup item.values s with
    | some v => if v.isNil then computeValue rest item else v
    | none => computeValue rest item

/-- Config.Get: the current value and a registration indicator. -/
def get (c : Cfg) (path : GoStr) : Option Value :=
  match alookup c.items path with
  | none => none
  | some item => some item.currentValue

/-- Config.Register from register.go: reject the empty path, validate
every dot-separated segment, then store a fresh item whose current
value is the supplied default. -/
def register (c : Cfg) (path : GoStr) (defaultValue : Value) : Cfg × Option GoStr :=
  if path = [] then (c, some ("registration path cannot be empty".data))
  else if (goSplit '.' path).all (fun seg => isValidKeySegment seg) then
    ({ c with items := ainsert c.items path (ConfigItem.mk defaultValue [] defaultValue) }, none)
  else (c, some ("invalid path segment".data))

/-- The Go test value.(string) with len(str) > MaxValueSize. -/
def isOversizeStr : Value → Bool
  | Value.vStr s => decide (s.length > maxValueSize)
  | _ => false

def errValueSize : GoStr := "value size exceeds maximum".data

/-- Config.SetSource from config.go: reject unregistered paths, reject
oversize string values, otherwise store the value in the per-source
entry, recompute the current value, and update the source cache. -/
def setSource (c : Cfg) (source : Source) (path : GoStr) (v : Value) : Cfg × Option GoStr :=
  match alookup c.items path with
  | none => (c, some ("path is not registered".data))
  | some item =>
    if isOversizeStr v then (c, some errValueSize)
    else
      let item1 : ConfigItem := { item with values := ainsert item.values source v }
      let item2 : ConfigItem := { item1 with currentValue := computeValue c.options.sources item1 }
      let c2 : Cfg := { c with items := ainsert c.items path item2 }
      let c3 : Cfg :=
        if source = sourceFile then { c2 with fileData := ainsert c2.fileData path v }
        else if source = sourceEnv then { c2 with envData := ainsert c2.envData path v }
        else if source = sourceCLI then { c2 with cliData := ainsert c2.cliData path v }
        else c2
      (c3, none)

/-- Config.Set from config.go delegates to SetSource with
c.options.Sources[0].  Indexing an empty slice panics in Go; the panic
is modelled as the result none. -/
def set (c : Cfg) (path : GoStr) (v : Value) : Option (Cfg × Option GoStr) :=
  match c.options.sources with
  | [] => none
  | s :: _ => some (setSource c s path v)

/-- Config.Unregister from register.go: error when neither the path nor
any child path (path plus a dot prefix) is registered; otherwise delete
the path and all children. -/
def unregister (c : Cfg) (path : GoStr) : Cfg × Option GoStr :=
  let hasPath := (alookup c.items path).isSome
  let hasChildren := c.items.any (fun kv => goStartsWith (path ++ ['.']) kv.1)
  if !hasPath && !hasChildren then (c, some ("path not registered".data))
  else
    let kept := c.items.filter (fun kv => !(kv.1 = path || goStartsWith (path ++ ['.']) kv.1))
    ({ c with items := kept }, none)

/-- Membership of a source string in the closed set validated by
SetPrecedence. -/
def isKnownSource (s : Source) : Bool :=
  s = sourceDefault || s = sourceFile || s = sourceEnv || s = sourceCLI

/-- Recompute the current value of every registered item under the
active precedence list. -/
def recomputeAll (c : Cfg) : Cfg :=
  let recomputed := c.items.map
    (fun kv => (kv.1, { kv.2 with currentValue := computeValue c.options.sources kv.2 }))
  { c with items := recomputed }

/-- Config.SetPrecedence from config.go: reject any unrecognized source,
append SourceDefault when absent, return unchanged when the list is
already active, otherwise replace the list and recompute every item.
Watcher notifications carry no registry state and are not modelled. -/
def setPrecedence (c : Cfg) (sources : List Source) : Cfg × Option GoStr :=
  if sources.all (fun s => isKnownSource s) then
    let sources2 := if sources.contains sourceDefault then sources else sources ++ [sourceDefault]
    if c.options.sources = sources2 then (c, none)
    else (recomputeAll { c with options := { sources := sources2 } }, none)
  else (c, some ("invalid source".data))

/-- setNestedValue from helper.go, recursing over the already split
path segments: create intermediate maps, overwriting any non-map value
found on the way. -/
def setNested (m : GoMap) (segments : List GoStr) (v : Value) : GoMap :=
  match segments with
  | [] => m
  | [last] => ainsert m last v
  | seg :: rest =>
    match alookup m seg with
    | some (Value.vMap sub) => ainsert m seg (Value.vMap (setNested sub rest v))
    | _ => ainsert m seg (Value.vMap (setNested [] rest v))

/-- setNestedValue from helper.go on a dotted path. -/
def setNestedValue (m : GoMap) (path : GoStr) (v : Value) : GoMap :=
  setNested m (goSplit '.' path) v

/-- flattenMap from helper.go: convert a nested map to a flat map with
dot-notation paths.  Go iterates map entries in unspecified order; the
model iterates in list order. -/
def flattenMap (entries : GoMap) (pre : GoStr) : GoMap :=
  match entries with
  | [] => []
  | (k, v) :: rest =>
    let newPath := if pre = [] then k else pre ++ '.' :: k
    (match v with
     | Value.vMap sub => flattenMap sub newPath
     | _ => [(newPath, v)]) ++ flattenMap rest pre

def strTrue : GoStr := "true".data
def dashdash : GoStr := "--".data

/-- The key part of Go strings.SplitN(s, eq, 2): everything before the
first equals sign. -/
def keyBeforeEq (s : GoStr) : GoStr :=
  s.takeWhile fun c => ¬(c = '=')

/-- The value part of Go strings.SplitN(s, eq, 2): everything after the
first equals sign. -/
def valAfterEq (s : GoStr) : GoStr :=
  (s.dropWhile fun c => ¬(c = '=')).tail

/-- parseArgs from loader.go: process command-line tokens into a nested
map.  Non-flag tokens are skipped; a bare double dash is skipped; a
key=value flag consumes one token; a flag followed by a non-flag token
consumes both; a flag that is last or followed by another flag gets the
value true; invalid key segments abort with an error. -/
def parseArgsLoop : List GoStr → GoMap → Except GoStr GoMap
  | [], result => Except.ok result
  | [arg], result =>
    if goStartsWith dashdash arg then
      let argContent := arg.drop 2
      if argContent = [] then Except.ok result
      else if argContent.contains '=' then
        let keyPath := keyBeforeEq argContent
        let valueStr := valAfterEq argContent
        if keyPath = [] then Except.ok result
        else if (goSplit '.' keyPath).all (fun seg => isValidKeySegment seg) then
          Except.ok (setNestedValue result keyPath (Value.vStr valueStr))
        else Except.error ("invalid command-line key segment".data)
      else
        let keyPath := argContent
        if (goSplit '.' keyPath).all (fun seg => isValidKeySegment seg) then
          Except.ok (setNestedValue result keyPath (Value.vStr strTrue))
        else Except.error ("invalid command-line key segment".data)
    else Except.ok result
  | arg :: next :: rest2, result =>
    if goStartsWith dashdash arg then
      let argContent := arg.drop 2
      if argContent = [] then parseArgsLoop (next :: rest2) result
      else if argContent.contains '=' then
        let keyPath := keyBeforeEq argContent
        let valueStr := valAfterEq argContent
        if keyPath = [] then parseArgsLoop (next :: rest2) result
        else if (goSplit '.' keyPath).all (fun seg => isValidKeySegment seg) then
          parseArgsLoop (next :: rest2) (setNestedValue result keyPath (Value.vStr valueStr))
        else Except.error ("invalid command-line key segment".data)
      else
        let keyPath := argContent
        if goStartsWith dashdash next then
          if (goSplit '.' keyPath).all (fun seg => isValidKeySegment seg) then
            parseArgsLoop (next :: rest2) (setNestedValue result keyPath (Value.vStr strTrue))
          else Except.error ("invalid command-line key segment".data)
        else
          if (goSplit '.' keyPath).all (fun seg => isValidKeySegment seg) then
            parseArgsLoop rest2 (setNestedValue result keyPath (Value.vStr next))
          else Except.error ("invalid command-line key segment".data)
    else parseArgsLoop (next :: rest2) result

def parseArgs (args : List GoStr) : Except GoStr GoMap :=
  parseArgsLoop args []

/-- The per-entry application loop of Config.loadCLI from loader.go:
store each flattened value under SourceCLI for registered paths and
recompute; unregistered paths are ignored.  No size check is made. -/
def applyCLIEntries : Cfg → GoMap → Cfg
  | c, [] => c
  | c, (path, v) :: rest =>
    let c2 :=
      match alookup c.items path with
      | none => c
      | some item =>
        let item1 : ConfigItem := { item with values := ainsert item.values sourceCLI v }
        let item2 : ConfigItem := { item1 with currentValue := computeValue c.options.sources item1 }
        { c with items := ainsert c.items path item2 }
    applyCLIEntries c2 rest

/-- Config.loadCLI from loader.go: parse the arguments, cache the
flattened map, and apply every entry. -/
def loadCLI (c : Cfg) (args : List GoStr) : Cfg × Option GoStr :=
  match parseArgs args with
  | Except.error e => (c, some e)
  | Except.ok parsed =>
    let flattened := flattenMap parsed []
    let c2 : Cfg := { c with cliData := flattened }
    (applyCLIEntries c2 flattened, none)

/-- The per-entry application loop of Config.loadFile from loader.go:
for each registered path, reject an oversize string by returning the
error immediately (mutations already made are kept, as the Go method
mutates the receiver in place), otherwise store under SourceFile and
recompute. -/
def applyFileEntries : Cfg → GoMap → Cfg × Option GoStr
  | c, [] => (c, none)
  | c, (path, v) :: rest =>
    match alookup c.items path with
    | none => applyFileEntries c rest
    | some item =>
      if isOversizeStr v then (c, some errValueSize)
      else
        let item1 : ConfigItem := { item with values := ainsert item.values sourceFile v }
        let item2 : ConfigItem := { item1 with currentValue := computeValue c.options.sources item1 }
        applyFileEntries { c with items := ainsert c.items path item2 } rest

/-- Config.loadFile from loader.go, from the point where the file has
been read and flattened (file io and TOML parsing are external): cache
the flattened map, then apply every entry. -/
def loadFileApply (c : Cfg) (flattened : GoMap) : Cfg × Option GoStr :=
  applyFileEntries { c with fileData := flattened } flattened

/-- Go strings.TrimSuffix with the literal dot suffix. -/
def trimDotSuffix (s : GoStr) : GoStr :=
  if s.getLast? = some '.' then s.dropLast else s

/-- The segment walk inside navigateToPath from decode.go: returns Go
nil when a segment is missing or a non-map is encountered. -/
def navGo : Value → List GoStr → Value
  | cur, [] => cur
  | cur, seg :: rest =>
    match cur with
    | Value.vMap m =>
      match alookup m seg with
      | some v => navGo v rest
      | none => Value.vNil
    | _ => Value.vNil

/-- navigateToPath from decode.go. -/
def navigateToPath (nested : GoMap) (path : GoStr) : Value :=
  if path = [] then Value.vMap nested
  else
    let p := trimDotSuffix path
    if p = [] then Value.vMap nested
    else navGo (Value.vMap nested) (goSplit '.' p)

/-- Spec-side resolution of a dotted path in a nested map: some value
when every segment is present, none when the path is absent. -/
def resGo : Value → List GoStr → Option Value
  | cur, [] => some cur
  | cur, seg :: rest =>
    match cur with
    | Value.vMap m =>
      match alookup m seg with
      | some v => resGo v rest
      | none => none
    | _ => none

/-- Spec-side resolution used to state claims about navigateToPath. -/
def resolvesTo (nested : GoMap) (path : GoStr) : Option Value :=
  if path = [] then some (Value.vMap nested)
  else
    let p := trimDotSuffix path
    if p = [] then some (Value.vMap nested)
    else resGo (Value.vMap nested) (goSplit '.' p)

/-- A decode target: a flat record of field keys with their zero
values. -/
structure FieldSpec where
  key : GoStr
  zeroVal : Value

/-- Modelled from the spec: the mapstructure decode step inside
Config.unmarshal (the mapstructure library is outside this repository).
With ZeroFields set, every target field is first zeroed and then set
from the section map when present, so decoding an empty map leaves the
target fully zero-valued. -/
def decodeModel (fields : List FieldSpec) (sect : GoMap) : List (GoStr × Value) :=
  fields.map (fun f => (f.key, (alookup sect f.key).getD f.zeroVal))

/-- The section dispatch of Config.unmarshal from decode.go: navigate
to basePath, decode a map section directly, treat Go nil as an empty
section, and report an error for any other value. -/
def unmarshalSection (fields : List FieldSpec) (nested : GoMap) (basePath : GoStr) :
    Except GoStr (List (GoStr × Value)) :=
  match navigateToPath nested basePath with
  | Value.vMap m => Except.ok (decodeModel fields m)
  | Value.vNil => Except.ok (decodeModel fields [])
  | _ => Except.error ("refers to non-map value".data)

/-- A Go channel of strings, reduced to the observations the claims
make: its buffer capacity and whether it is closed. -/
structure GoChan where
  capacity : Nat
  closed : Bool

/-- The watcher state from watch.go: the subscriber map and the id
counter, with the MaxWatchers option. -/
structure WatcherState where
  maxWatchers : Nat
  nextId : Int
  watchers : List (Int × GoChan)

/-- watcher.subscribe from watch.go: at or above the limit return a
pre-closed unbuffered channel and register nothing; otherwise register
and return a fresh buffered channel of capacity 10. -/
def subscribe (w : WatcherState) : GoChan × WatcherState :=
  if w.watchers.length ≥ w.maxWatchers then
    (GoChan.mk 0 true, w)
  else
    let id := w.nextId + 1
    (GoChan.mk 10 false, WatcherState.mk w.maxWatchers id (w.watchers ++ [(id, GoChan.mk 10 false)]))

/-- The cleanup goroutine of watcher.subscribe: delete a subscriber. -/
def cleanupWatcher (w : WatcherState) (id : Int) : WatcherState :=
  WatcherState.mk w.maxWatchers w.nextId (w.watchers.filter (fun kv => ¬(kv.1 = id)))

/-- Config.WatcherCount from watch.go. -/
def watcherCount (w : WatcherState) : Nat := w.watchers.length

/-- The operations that touch the subscriber map. -/
inductive WatchOp where
  | sub : WatchOp
  | clean : Int → WatchOp

/-- Run a sequence of subscribe and cleanup steps. -/
def runWatchOps : WatcherState → List WatchOp → WatcherState
  | w, [] => w
  | w, WatchOp.sub :: rest => runWatchOps (subscribe w).2 rest
  | w, WatchOp.clean id :: rest => runWatchOps (cleanupWatcher w id) rest

/-- The watcher state created by AutoUpdateWithOptions: empty
subscriber map, id counter at zero. -/
def initialWatcher (maxW : Nat) : WatcherState :=
  WatcherState.mk maxW 0 []

/-! Spec-side definitions, written from the claims rather than the
source, for refinement statements. -/

def isAsciiLetter (r : Char) : Bool :=
  ('a' ≤ r ∧ r ≤ 'z') ∨ ('A' ≤ r ∧ r ≤ 'Z')

def isAsciiDigit (r : Char) : Bool :=
  '0' ≤ r ∧ r ≤ '9'

/-- The segment pattern as the claim states it: first rune alphabetic
or underscore, every later rune alphanumeric, underscore, or dash. -/
def specSegmentPattern (s : GoStr) : Bool :=
  match s with
  | [] => false
  | r0 :: rest =>
    (isAsciiLetter r0 || r0 = '_') &&
      rest.all (fun r => isAsciiLetter r || isAsciiDigit r || r = '_' || r = '-')

/-- The amended segment pattern: non-empty and every rune alphanumeric,
underscore, or dash, with no restriction on the first rune. -/
def amendedSegmentPattern (s : GoStr) : Bool :=
  decide (s ≠ []) &&
    s.all (fun r => isAsciiLetter r || isAsciiDigit r || r = '_' || r = '-')

/-- The current value as the claim states it: the value of the first
source in the precedence list whose per-source entry is present and
non-nil, else the registered default. -/
def specCurrentValue (sources : List Source) (item : ConfigItem) : Value :=
  match sources.find? (fun s =>
      match alookup item.values s with
      | some v => !v.isNil
      | none => false) with
  | some s => (alookup item.values s).getD Value.vNil
  | none => item.defaultValue

/-- The registry invariant maintained by every operation: each stored
current value is the computed value under the active precedence. -/
def Invariant (c : Cfg) : Prop :=
  ∀ p item, alookup c.items p = some item →
    item.currentValue = computeValue c.options.sources item

/-- No per-source entry of any registered item holds a string longer
than MaxValueSize. -/
def NoOversize (c : Cfg) : Prop :=
  ∀ p item, alookup c.items p = some item →
    ∀ src s, alookup item.values src = some (Value.vStr s) → s.length ≤ maxValueSize

/-- A concrete string one byte longer than MaxValueSize. -/
def bigStr : GoStr := 'a' :: List.replicate maxValueSize 'a'

/-! Helper lemmas about the map and string model. -/

theorem alookup_ainsert_self {β : Type} (m : List (GoStr × β)) (k : GoStr) (v : β) :
    alookup (ainsert m k v) k = some v := by
  induction m with
  | nil => simp [ainsert, alookup]
  | cons kv rest ih =>
    obtain ⟨k0, v0⟩ := kv
    by_cases h : k0 = k
    · simp [ainsert, alookup, h]
    · simp [ainsert, alookup, h, ih]

theorem alookup_ainsert_ne {β : Type} (m : List (GoStr × β)) (k q : GoStr) (v : β)
    (h : ¬(k = q)) : alookup (ainsert m k v) q = alookup m q := by
  induction m with
  | nil => simp [ainsert, alookup, h]
  | cons kv rest ih =>
    obtain ⟨k0, v0⟩ := kv
    by_cases h0 : k0 = k
    · subst h0
      simp [ainsert, alookup, h]
    · simp only [ainsert, if_neg h0]
      by_cases hq : k0 = q
      · simp [alookup, hq]
      · simp [alookup, hq, ih]

theorem alookup_filter {β : Type} (m : List (GoStr × β)) (p : GoStr → Bool) (q : GoStr) :
    alookup (m.filter (fun kv => p kv.1)) q = if p q then alookup m q else none := by
  induction m with
  | nil => simp [alookup]
  | cons kv rest ih =>
    obtain ⟨k0, v0⟩ := kv
    by_cases hp : p k0
    · by_cases hq : k0 = q
      · subst hq
        simp [List.filter, hp, alookup, ih]
      · simp [List.filter, hp, alookup, hq, ih]
    · by_cases hq : k0 = q
      · subst hq
        simp only [List.filter, Bool.not_eq_true] at *
        simp [hp, ih, alookup, hp]
      · simp only [List.filter] at *
        simp [hp, ih, alookup, hq]

theorem alookup_map_value {β γ : Type} (m : List (GoStr × β)) (g : β → γ) (q : GoStr) :
    alookup (m.map (fun kv => (kv.1, g kv.2))) q = (alookup m q).map g := by
  induction m with
  | nil => simp [alookup]
  | cons kv rest ih =>
    obtain ⟨k0, v0⟩ := kv
    by_cases hq : k0 = q
    · simp [alookup, hq]
    · simp [alookup, hq, ih]

theorem computeValue_eq_spec (sources : List Source) (item : ConfigItem) :
    computeValue sources item = specCurrentValue sources item := by
  induction sources with
  | nil => rfl
  | cons s rest ih =>
    unfold computeValue specCurrentValue
    cases h : alookup item.values s with
    | none =>
      simp only [List.find?, h]
      rw [ih]
      rfl
    | some v =>
      cases hn : v.isNil with
      | true =>
        simp only [List.find?, h, hn, if_pos rfl, Bool.not_true]
        rw [ih]
        rfl
      | false =>
        simp only [List.find?, h, hn, Bool.not_false, if_neg]
        simp [h]

theorem navGo_eq_resGo (segs : List GoStr) (cur : Value) :
    navGo cur segs = (resGo cur segs).getD Value.vNil := by
  induction segs generalizing cur with
  | nil => rfl
  | cons seg rest ih =>
    cases cur with
    | vMap m =>
      cases h : alookup m seg with
      | none => simp [navGo, resGo, h]
      | some v => simp [navGo, resGo, h, ih]
    | vNil => rfl
    | vStr s => rfl
    | vBool b => rfl
    | vInt n => rfl

theorem navigateToPath_eq_resolvesTo (nested : GoMap) (path : GoStr) :
    navigateToPath nested path = (resolvesTo nested path).getD Value.vNil := by
  unfold navigateToPath resolvesTo
  by_cases h0 : path = []
  · simp [h0]
  · simp only [if_neg h0]
    by_cases h1 : trimDotSuffix path = []
    · simp [h1]
    · simp [h1, navGo_eq_resGo]

theorem charClass_eq (r : Char) :
    (decide ((('a' ≤ r ∧ r ≤ 'z') ∨ ('A' ≤ r ∧ r ≤ 'Z')) ∨ ('0' ≤ r ∧ r ≤ '9') ∨ r = '_' ∨ r = '-'))
      = (isAsciiLetter r || isAsciiDigit r || r = '_' || r = '-') := by
  simp [isAsciiLetter, isAsciiDigit, Bool.or_assoc]

theorem all_charClass_false_of_contains_dot (s : GoStr) (h : s.contains '.' = true) :
    s.all (fun r => isAsciiLetter r || isAsciiDigit r || r = '_' || r = '-') = false := by
  have hmem : '.' ∈ s := by
    simpa using h
  cases hall : s.all (fun r => isAsciiLetter r || isAsciiDigit r || r = '_' || r = '-') with
  | false => rfl
  | true =>
    rw [List.all_eq_true] at hall
    have := hall '.' hmem
    simp [isAsciiLetter, isAsciiDigit] at this

theorem computeValue_nil_values (sources : List Source) (d cur : Value) :
    computeValue sources (ConfigItem.mk d [] cur) = d := by
  induction sources with
  | nil => rfl
  | cons s rest ih => simp [computeValue, alookup, ih]

theorem invariant_newCfg : Invariant newCfg := by
  intro p item h
  cases h

theorem invariant_register (c : Cfg) (path : GoStr) (d : Value) (h : Invariant c) :
    Invariant (register c path d).1 := by
  unfold register
  by_cases h0 : path = []
  · simpa [h0] using h
  · rw [if_neg h0]
    by_cases h1 : (goSplit '.' path).all (fun seg => isValidKeySegment seg) = true
    · rw [if_pos h1]
      intro q item hq
      by_cases hpq : path = q
      · subst hpq
        rw [alookup_ainsert_self] at hq
        cases hq
        exact (computeValue_nil_values _ _ _).symm
      · rw [alookup_ainsert_ne _ _ _ _ hpq] at hq
        exact h q item hq
    · simpa [h1] using h

theorem bigStr_length : bigStr.length = maxValueSize + 1 := by
  rw [bigStr, List.length_cons, List.length_replicate]

theorem bigStr_oversize : maxValueSize < bigStr.length := by
  rw [bigStr_length]
  exact Nat.lt_succ_self _

theorem isOversizeStr_bigStr : isOversizeStr (Value.vStr bigStr) = true := by
  simp [isOversizeStr]
  exact bigStr_oversize

theorem isValidKeySegment_eq_amended (s : GoStr) :
    isValidKeySegment s = amendedSegmentPattern s := by
  have hch : (fun r : Char =>
      let isLetter := ('a' ≤ r ∧ r ≤ 'z') ∨ ('A' ≤ r ∧ r ≤ 'Z')
      let isDigit := ('0' ≤ r ∧ r ≤ '9')
      let isUnderscore := r = '_'
      let isDash := r = '-'
      decide (isLetter ∨ isDigit ∨ isUnderscore ∨ isDash))
      = (fun r => isAsciiLetter r || isAsciiDigit r || r = '_' || r = '-') := by
    funext r
    exact charClass_eq r
  unfold isValidKeySegment amendedSegmentPattern
  rw [hch]
  by_cases h0 : s.length = 0
  · have hs : s = [] := List.length_eq_zero.mp h0
    subst hs
    simp
  · rw [if_neg h0]
    have hne : s ≠ [] := by
      intro h
      subst h
      simp at h0
    by_cases hdot : s.contains '.' = true
    · rw [if_pos hdot, all_charClass_false_of_contains_dot _ hdot]
      simp [hne]
    · rw [if_neg hdot]
      simp [hne]

theorem alookup_unreg_filter (m : List (GoStr × ConfigItem)) (path q : GoStr) :
    alookup (m.filter fun kv => !(kv.1 = path || goStartsWith (path ++ ['.']) kv.1)) q =
      if q = path ∨ goStartsWith (path ++ ['.']) q = true then none
      else alookup m q := by
  induction m with
  | nil => simp [alookup, ite_self]
  | cons kv rest ih =>
    obtain ⟨k0, v0⟩ := kv
    by_cases hk : (!(decide (k0 = path) || goStartsWith (path ++ ['.']) k0)) = true
    · have hkeep : ¬(k0 = path) ∧ goStartsWith (path ++ ['.']) k0 = false := by
        simpa using hk
      by_cases hq : k0 = q
      · subst hq
        rw [if_neg]
        · simp [List.filter, hk, alookup]
        · rintro (h | h)
          · exact hkeep.1 h
          · rw [hkeep.2] at h
            cases h
      · simp only [List.filter, hk]
        rw [show alookup ((k0, v0) :: rest) q = alookup rest q from by rw [alookup, if_neg hq]]
        rw [alookup, if_neg hq]
        exact ih
    · have hdrop : (!(decide (k0 = path) || goStartsWith (path ++ ['.']) k0)) = false := by
        simpa using hk
      have hcond : k0 = path ∨ goStartsWith (path ++ ['.']) k0 = true := by
        simpa [Decidable.or_iff_not_imp_left] using hk
      by_cases hq : k0 = q
      · subst hq
        rw [if_pos]
        · simp only [List.filter, hdrop]
          rw [ih, if_pos]
          rcases hcond with h | h
          · exact Or.inl (by rw [h])
          · exact Or.inr h
        · rcases hcond with h | h
          · exact Or.inl (by rw [h])
          · exact Or.inr h
      · simp only [List.filter, hdrop]
        rw [ih]
        by_cases hcq : q = path ∨ goStartsWith (path ++ ['.']) q = true
        · rw [if_pos hcq, if_pos hcq]
        · rw [if_neg hcq, if_neg hcq]
          simp [alookup, hq]

theorem alookup_recompute (m : List (GoStr × ConfigItem)) (srcs : List Source) (q : GoStr) :
    alookup (m.map fun kv => (kv.1, { kv.2 with currentValue := computeValue srcs kv.2 })) q =
      (alookup m q).map fun item => { item with currentValue := computeValue srcs item } := by
  induction m with
  | nil => simp [alookup]
  | cons kv rest ih =>
    obtain ⟨k0, v0⟩ := kv
    by_cases hq : k0 = q
    · simp [alookup, hq]
    · simp [alookup, hq, ih]

theorem runWatchOps_le (ops : List WatchOp) (w : WatcherState)
    (h : watcherCount w ≤ w.maxWatchers) :
    watcherCount (runWatchOps w ops) ≤ w.maxWatchers ∧
    (runWatchOps w ops).maxWatchers = w.maxWatchers := by
  induction ops generalizing w with
  | nil => exact ⟨h, rfl⟩
  | cons op rest ih =>
    cases op with
    | sub =>
      rw [show runWatchOps w (WatchOp.sub :: rest) = runWatchOps (subscribe w).2 rest from rfl]
      by_cases hge : w.watchers.length ≥ w.maxWatchers
      · have hsame : (subscribe w).2 = w := by
          unfold subscribe
          rw [if_pos hge]
        rw [hsame]
        exact ih w h
      · have h2 : (subscribe w).2 = WatcherState.mk w.maxWatchers (w.nextId + 1)
            (w.watchers ++ [(w.nextId + 1, GoChan.mk 10 false)]) := by
          unfold subscribe
          rw [if_neg hge]
        rw [h2]
        have hlen : watcherCount (WatcherState.mk w.maxWatchers (w.nextId + 1)
            (w.watchers ++ [(w.nextId + 1, GoChan.mk 10 false)])) ≤ w.maxWatchers := by
          simp only [watcherCount, List.length_append, List.length_cons, List.length_nil]
          omega
        exact ih _ hlen
    | clean id =>
      rw [show runWatchOps w (WatchOp.clean id :: rest) =
        runWatchOps (cleanupWatcher w id) rest from rfl]
      have hlen : watcherCount (cleanupWatcher w id) ≤ w.maxWatchers := by
        simp only [watcherCount, cleanupWatcher]
        exact le_trans (List.length_filter_le _ _) h
      exact ih _ hlen

theorem dashdash_eq : dashdash = ['-', '-'] := rfl

theorem goStartsWith_dd (x : GoStr) : goStartsWith dashdash (dashdash ++ x) = true := by
  rw [goStartsWith, dashdash_eq]
  simp [List.isPrefixOf]

theorem drop_two_dd (x : GoStr) : (dashdash ++ x).drop 2 = x := rfl

theorem contains_eq_mid (k v : GoStr) : (k ++ '=' :: v).contains '=' = true := by
  simp

theorem contains_cons_split (c : Char) (rest : GoStr) (h : (c :: rest).contains '=' = false) :
    ¬(c = '=') ∧ rest.contains '=' = false := by
  simp only [List.contains_cons, Bool.or_eq_false_iff] at h
  constructor
  · intro hc
    subst hc
    simp at h
  · exact h.2

theorem keyBeforeEq_append (k v : GoStr) (h : k.contains '=' = false) :
    keyBeforeEq (k ++ '=' :: v) = k := by
  induction k with
  | nil =>
    rw [keyBeforeEq, List.nil_append, List.takeWhile_cons, if_neg]
    simp
  | cons c rest ih =>
    obtain ⟨hc, hrest⟩ := contains_cons_split c rest h
    rw [keyBeforeEq, List.cons_append, List.takeWhile_cons, if_pos (by simpa using hc)]
    rw [show (rest ++ '=' :: v).takeWhile (fun c => ¬(c = '=')) = keyBeforeEq (rest ++ '=' :: v)
      from rfl]
    rw [ih hrest]

theorem valAfterEq_append (k v : GoStr) (h : k.contains '=' = false) :
    valAfterEq (k ++ '=' :: v) = v := by
  have hdrop : ∀ (l : GoStr), l.contains '=' = false →
      ((l ++ '=' :: v).dropWhile fun c => ¬(c = '=')) = '=' :: v := by
    intro l hl
    induction l with
    | nil =>
      rw [List.nil_append, List.dropWhile_cons, if_neg]
      simp
    | cons c rest ih =>
      obtain ⟨hc, hrest⟩ := contains_cons_split c rest hl
      rw [List.cons_append, List.dropWhile_cons, if_pos (by simpa using hc)]
      exact ih hrest
  rw [valAfterEq, hdrop k h]
  rfl

theorem applyFileEntries_oversize_step (c : Cfg) (path : GoStr) (v : Value) (rest : GoMap)
    (item : ConfigItem) (hl : alookup c.items path = some item)
    (hov : isOversizeStr v = true) :
    applyFileEntries c ((path, v) :: rest) = (c, some errValueSize) := by
  simp [applyFileEntries, hl, hov]

theorem oversize_of_isOversizeStr_false (s : GoStr) (h : isOversizeStr (Value.vStr s) = false) :
    s.length ≤ maxValueSize := by
  simp only [isOversizeStr, gt_iff_lt, decide_eq_false_iff_not, not_lt] at h
  exact h

theorem applyFileEntries_store_step (c : Cfg) (path : GoStr) (v : Value) (rest : GoMap)
    (item : ConfigItem) (hl : alookup c.items path = some item)
    (hov : isOversizeStr v = false) :
    applyFileEntries c ((path, v) :: rest) =
      applyFileEntries { c with items := ainsert c.items path (ConfigItem.mk
        item.defaultValue (ainsert item.values sourceFile v) (computeValue
          c.options.sources (ConfigItem.mk item.defaultValue
            (ainsert item.values sourceFile v) item.currentValue))) } rest := by
  simp [applyFileEntries, hl, hov]

theorem applyFileEntries_preserves (entries : GoMap) (c : Cfg) (h : NoOversize c) :
    NoOversize (applyFileEntries c entries).1 := by
  induction entries generalizing c with
  | nil => exact h
  | cons e rest ih =>
    obtain ⟨path, v⟩ := e
    cases hl : alookup c.items path with
    | none =>
      have hstep : applyFileEntries c ((path, v) :: rest) = applyFileEntries c rest := by
        simp [applyFileEntries, hl]
      rw [hstep]
      exact ih c h
    | some item =>
      cases hov : isOversizeStr v with
      | true =>
        rw [applyFileEntries_oversize_step c path v rest item hl hov]
        exact h
      | false =>
        have hstep : applyFileEntries c ((path, v) :: rest) =
            applyFileEntries { c with items := ainsert c.items path (ConfigItem.mk
              item.defaultValue (ainsert item.values sourceFile v) (computeValue
                c.options.sources (ConfigItem.mk item.defaultValue
                  (ainsert item.values sourceFile v) item.currentValue))) } rest := by
          simp [applyFileEntries, hl, hov]
        rw [hstep]
        apply ih
        intro p it hit src s hs
        by_cases hpq : path = p
        · subst hpq
          rw [alookup_ainsert_self] at hit
          injection hit with hit2
          rw [← hit2] at hs
          simp only [] at hs
          by_cases hsrc : sourceFile = src
          · subst hsrc
            rw [alookup_ainsert_self] at hs
            injection hs with hs2
            subst hs2
            exact oversize_of_isOversizeStr_false s hov
          · rw [alookup_ainsert_ne _ _ _ _ hsrc] at hs
            exact h path item hl src s hs
        · rw [alookup_ainsert_ne _ _ _ _ hpq] at hit
          exact h p it hit src s hs

/-! Claim theorems. -/

/-- C1: For every registered path, the current value returned by Get
equals the value of the first source in the active precedence list
whose per-source entry is present and non-nil; if no source in the list
has such an entry, Get returns the registered default value.  Stated
for every registry satisfying the maintained computed-value
invariant. -/
theorem get_first_source (c : Cfg) (hinv : Invariant c) (path : GoStr) (item : ConfigItem)
    (hreg : alookup c.items path = some item) :
    get c path = some (specCurrentValue c.options.sources item) := by
  unfold get
  rw [hreg]
  show some item.currentValue = some (specCurrentValue c.options.sources item)
  rw [hinv path item hreg, computeValue_eq_spec]

/-- Witness for C1 at a concrete one-item registry. -/
theorem get_first_source_witness :
    get ((register newCfg ("p".data) (Value.vInt 1)).1) ("p".data) =
      some (specCurrentValue ((register newCfg ("p".data) (Value.vInt 1)).1).options.sources
        (ConfigItem.mk (Value.vInt 1) [] (Value.vInt 1))) :=
  get_first_source _ (invariant_register newCfg ("p".data) (Value.vInt 1) invariant_newCfg)
    ("p".data) _ rfl

/-- C4: Calling Register a second time on an already-registered path
replaces the stored default with the newly supplied default, clears all
per-source entries for that path, and resets its current value to the
new default. -/
theorem register_resets (c : Cfg) (path : GoStr) (d : Value) (c2 : Cfg)
    (_hreg : (alookup c.items path).isSome = true)
    (hsucc : register c path d = (c2, none)) :
    alookup c2.items path = some (ConfigItem.mk d [] d) := by
  unfold register at hsucc
  by_cases h0 : path = []
  · rw [if_pos h0] at hsucc
    simp at hsucc
  · rw [if_neg h0] at hsucc
    by_cases h1 : (goSplit '.' path).all (fun seg => isValidKeySegment seg) = true
    · rw [if_pos h1] at hsucc
      injection hsucc with hc _
      rw [← hc]
      exact alookup_ainsert_self _ _ _
    · rw [if_neg h1] at hsucc
      simp at hsucc

/-- Witness for C4: re-registering a path installs the new default with
no per-source entries. -/
theorem register_resets_witness :
    alookup ((register ((register newCfg ("p".data) (Value.vInt 1)).1)
        ("p".data) (Value.vInt 2)).1).items ("p".data)
      = some (ConfigItem.mk (Value.vInt 2) [] (Value.vInt 2)) :=
  register_resets ((register newCfg ("p".data) (Value.vInt 1)).1) ("p".data)
    (Value.vInt 2) _ (by decide) rfl

/-- C2 counterexample: the path consisting of the single segment 1
does not match the claimed pattern (its first rune is neither
alphabetic nor underscore), yet Register accepts it. -/
theorem register_digit_counterexample :
    (register newCfg ("1".data) Value.vNil).2 = none ∧
    goSplit '.' ("1".data) = [("1".data)] ∧
    specSegmentPattern ("1".data) = false :=
  ⟨rfl, rfl, rfl⟩

/-- C2 amended: Register succeeds exactly when every dot-separated
segment of the path is non-empty and consists only of ASCII letters,
digits, underscore, or dash, with no restriction on the first rune;
otherwise Register returns an error and the registry is unchanged. -/
theorem register_iff_amended (c : Cfg) (path : GoStr) (d : Value) :
    ((register c path d).2 = none ↔
      ((goSplit '.' path).all fun seg => amendedSegmentPattern seg) = true) ∧
    (¬((register c path d).2 = none) → (register c path d).1 = c) := by
  have hall : ((goSplit '.' path).all fun seg => isValidKeySegment seg)
      = ((goSplit '.' path).all fun seg => amendedSegmentPattern seg) := by
    have hfun : (fun seg => isValidKeySegment seg) = (fun seg => amendedSegmentPattern seg) :=
      funext isValidKeySegment_eq_amended
    rw [hfun]
  unfold register
  by_cases h0 : path = []
  · subst h0
    refine ⟨?_, ?_⟩
    · rw [if_pos rfl]
      constructor
      · intro h
        simp at h
      · intro h
        rw [show goSplit '.' ([] : GoStr) = [[]] from rfl] at h
        simp [amendedSegmentPattern] at h
    · intro _
      rfl
  · rw [if_neg h0]
    by_cases h1 : ((goSplit '.' path).all fun seg => isValidKeySegment seg) = true
    · rw [if_pos h1]
      rw [hall] at h1
      refine ⟨?_, ?_⟩
      · simp [h1]
      · intro h
        exact absurd rfl h
    · rw [if_neg h1]
      rw [hall] at h1
      refine ⟨?_, ?_⟩
      · constructor
        · intro h
          simp at h
        · intro h
          exact absurd h h1
      · intro _
        rfl

/-- Witness for C2 amended: a valid path registers, an invalid path
leaves the registry unchanged. -/
theorem register_iff_amended_witness :
    (register newCfg ("a".data) Value.vNil).2 = none ∧
    (register newCfg ("a b".data) Value.vNil).1 = newCfg :=
  ⟨(register_iff_amended newCfg ("a".data) Value.vNil).1.mpr (by decide),
   (register_iff_amended newCfg ("a b".data) Value.vNil).2 (by decide)⟩

/-- C3 counterexample: a bare double dash does not end option
processing; the flag token after it still produces a key-value pair. -/
theorem parseArgs_separator_counterexample :
    parseArgs ["--".data, "--a=1".data] = Except.ok [("a".data, Value.vStr ("1".data))] := rfl

/-- C3 amended: a bare double dash is skipped and option processing
continues with the remaining tokens; key=value flags consume one token;
a flag followed by a non-flag token takes it as value; a flag that is
last or followed by another flag gets the value true; non-flag tokens
are ignored; an invalid key segment aborts parsing with an error. -/
theorem parseArgs_clauses :
    (∀ rest acc, parseArgsLoop (dashdash :: rest) acc = parseArgsLoop rest acc) ∧
    (∀ t rest acc, goStartsWith dashdash t = false →
      parseArgsLoop (t :: rest) acc = parseArgsLoop rest acc) ∧
    (∀ k v rest acc, k.contains '=' = false → k ≠ [] →
      ((goSplit '.' k).all fun seg => isValidKeySegment seg) = true →
      parseArgsLoop ((dashdash ++ k ++ '=' :: v) :: rest) acc =
        parseArgsLoop rest (setNestedValue acc k (Value.vStr v))) ∧
    (∀ k next rest acc, k.contains '=' = false → k ≠ [] →
      ((goSplit '.' k).all fun seg => isValidKeySegment seg) = true →
      goStartsWith dashdash next = false →
      parseArgsLoop ((dashdash ++ k) :: next :: rest) acc =
        parseArgsLoop rest (setNestedValue acc k (Value.vStr next))) ∧
    (∀ k next rest acc, k.contains '=' = false → k ≠ [] →
      ((goSplit '.' k).all fun seg => isValidKeySegment seg) = true →
      goStartsWith dashdash next = true →
      parseArgsLoop ((dashdash ++ k) :: next :: rest) acc =
        parseArgsLoop (next :: rest) (setNestedValue acc k (Value.vStr strTrue))) ∧
    (∀ k acc, k.contains '=' = false → k ≠ [] →
      ((goSplit '.' k).all fun seg => isValidKeySegment seg) = true →
      parseArgsLoop [dashdash ++ k] acc =
        Except.ok (setNestedValue acc k (Value.vStr strTrue))) ∧
    (∀ k v rest acc, k.contains '=' = false → k ≠ [] →
      ((goSplit '.' k).all fun seg => isValidKeySegment seg) = false →
      parseArgsLoop ((dashdash ++ k ++ '=' :: v) :: rest) acc =
        Except.error ("invalid command-line key segment".data)) ∧
    (∀ k rest acc, k.contains '=' = false → k ≠ [] →
      ((goSplit '.' k).all fun seg => isValidKeySegment seg) = false →
      parseArgsLoop ((dashdash ++ k) :: rest) acc =
        Except.error ("invalid command-line key segment".data)) ∧
    (∀ args, parseArgs args = parseArgsLoop args []) := by
  refine ⟨?_, ?_, ?_, ?_, ?_, ?_, ?_, ?_, ?_⟩
  · intro rest acc
    cases rest <;> rfl
  · intro t rest acc h
    cases rest <;> simp only [parseArgsLoop, h, Bool.false_eq_true, if_false]
  · intro k v rest acc h1 h2 h3
    cases rest <;>
      simp [parseArgsLoop, List.append_assoc, goStartsWith_dd, drop_two_dd, contains_eq_mid,
        keyBeforeEq_append _ _ h1, valAfterEq_append _ _ h1, h2, h3]
  · intro k next rest acc h1 h2 h3 h4
    simp [parseArgsLoop, goStartsWith_dd, drop_two_dd, h1, h2, h3, h4]
    intro hmem
    exact absurd hmem (by simpa using h1)
  · intro k next rest acc h1 h2 h3 h4
    simp [parseArgsLoop, goStartsWith_dd, drop_two_dd, h1, h2, h3, h4]
    intro hmem
    exact absurd hmem (by simpa using h1)
  · intro k acc h1 h2 h3
    simp [parseArgsLoop, goStartsWith_dd, drop_two_dd, h1, h2, h3]
    intro hmem
    exact absurd hmem (by simpa using h1)
  · intro k v rest acc h1 h2 h3
    cases rest <;>
      simp [parseArgsLoop, List.append_assoc, goStartsWith_dd, drop_two_dd, contains_eq_mid,
        keyBeforeEq_append _ _ h1, h2, h3]
  · intro k rest acc h1 h2 h3
    cases rest with
    | nil =>
      simp [parseArgsLoop, goStartsWith_dd, drop_two_dd, h1, h2, h3]
      intro hmem
      exact absurd hmem (by simpa using h1)
    | cons r rs =>
      by_cases hnext : goStartsWith dashdash r = true
      · simp [parseArgsLoop, goStartsWith_dd, drop_two_dd, h1, h2, h3, hnext]
        intro hmem
        exact absurd hmem (by simpa using h1)
      · have hnext2 : goStartsWith dashdash r = false := by
          cases hgr : goStartsWith dashdash r
          · rfl
          · exact absurd hgr hnext
        simp [parseArgsLoop, goStartsWith_dd, drop_two_dd, h1, h2, h3, hnext2]
        intro hmem
        exact absurd hmem (by simpa using h1)
  · intro args
    rfl

/-- Witness for C3 amended, exercising the separator, key=value, and
space-separated value clauses on concrete tokens. -/
theorem parseArgs_clauses_witness :
    parseArgsLoop (dashdash :: ["--a=1".data]) [] = parseArgsLoop ["--a=1".data] [] ∧
    parseArgsLoop [(dashdash ++ ("a".data) ++ '=' :: ("1".data))] [] =
      parseArgsLoop [] (setNestedValue [] ("a".data) (Value.vStr ("1".data))) ∧
    parseArgsLoop ((dashdash ++ ("a".data)) :: ("b".data) :: []) [] =
      parseArgsLoop [] (setNestedValue [] ("a".data) (Value.vStr ("b".data))) :=
  ⟨parseArgs_clauses.1 ["--a=1".data] [],
   parseArgs_clauses.2.2.1 ("a".data) ("1".data) [] [] (by decide) (by decide) (by decide),
   parseArgs_clauses.2.2.2.1 ("a".data) ("b".data) [] [] (by decide) (by decide) (by decide)
     (by decide)⟩

/-- C6: Unregister removes the path itself and every registered path
that begins with path plus a dot, and it returns an error exactly when
neither the path nor any such descendant is registered; in the error
case the registry is unchanged. -/
theorem unregister_spec (c : Cfg) (path : GoStr) :
    ((unregister c path).2.isSome = true ↔
      (alookup c.items path = none ∧ ∀ kv ∈ c.items, goStartsWith (path ++ ['.']) kv.1 = false)) ∧
    ((unregister c path).2.isSome = true → (unregister c path).1 = c) ∧
    ((unregister c path).2 = none → ∀ q,
      alookup (unregister c path).1.items q =
        if q = path ∨ goStartsWith (path ++ ['.']) q = true then none else alookup c.items q) := by
  unfold unregister
  by_cases hp : (alookup c.items path).isSome = true
  · have hcond : (!(alookup c.items path).isSome &&
        !(c.items.any fun kv => goStartsWith (path ++ ['.']) kv.1)) = false := by
      simp [hp]
    simp only [hcond, Bool.false_eq_true, if_false]
    refine ⟨?_, ?_, ?_⟩
    · constructor
      · intro h
        simp at h
      · rintro ⟨h1, _⟩
        rw [h1] at hp
        simp at hp
    · intro h
      simp at h
    · intro _ q
      exact alookup_unreg_filter c.items path q
  · by_cases hc : (c.items.any fun kv => goStartsWith (path ++ ['.']) kv.1) = true
    · have hcond : (!(alookup c.items path).isSome &&
          !(c.items.any fun kv => goStartsWith (path ++ ['.']) kv.1)) = false := by
        simp [hc]
      simp only [hcond, Bool.false_eq_true, if_false]
      refine ⟨?_, ?_, ?_⟩
      · constructor
        · intro h
          simp at h
        · rintro ⟨_, h2⟩
          rw [List.any_eq_true] at hc
          obtain ⟨kv, hmem, hgo⟩ := hc
          rw [h2 kv hmem] at hgo
          cases hgo
      · intro h
        simp at h
      · intro _ q
        exact alookup_unreg_filter c.items path q
    · have hcond : (!(alookup c.items path).isSome &&
          !(c.items.any fun kv => goStartsWith (path ++ ['.']) kv.1)) = true := by
        simp only [Bool.and_eq_true, Bool.not_eq_true']
        constructor
        · cases h2 : (alookup c.items path).isSome with
          | false => rfl
          | true => exact absurd h2 hp
        · cases h2 : (c.items.any fun kv => goStartsWith (path ++ ['.']) kv.1) with
          | false => rfl
          | true => exact absurd h2 hc
      simp only [hcond, if_true]
      refine ⟨?_, ?_, ?_⟩
      · constructor
        · intro _
          constructor
          · cases hopt : alookup c.items path with
            | none => rfl
            | some v =>
              rw [hopt] at hp
              simp at hp
          · intro kv hmem
            cases hgo : goStartsWith (path ++ ['.']) kv.1 with
            | false => rfl
            | true => exact absurd (List.any_eq_true.mpr ⟨kv, hmem, hgo⟩) hc
        · intro _
          rfl
      · intro _
        trivial
      · intro h
        cases h

/-- Witness for C6: unregistering a parent removes the registered
descendant. -/
theorem unregister_spec_witness :
    alookup ((unregister ((register newCfg ("a.b".data) (Value.vInt 1)).1)
        ("a".data)).1.items) ("a.b".data) = none := by
  have h := (unregister_spec ((register newCfg ("a.b".data) (Value.vInt 1)).1)
      ("a".data)).2.2 (by decide) ("a.b".data)
  rw [h, if_pos]
  right
  decide

/-- C9: SetPrecedence returns an error and changes nothing when the
supplied list contains an unrecognized source; otherwise, if Default is
absent from the list it is appended, the active precedence list is
replaced, and the current value of every registered item is recomputed
under the new list before the call returns.  Stated for every registry
satisfying the maintained computed-value invariant. -/
theorem setPrecedence_spec (c : Cfg) (srcs : List Source) (hinv : Invariant c) :
    ((setPrecedence c srcs).2.isSome = true ↔
      ¬((srcs.all fun s => isKnownSource s) = true)) ∧
    ((setPrecedence c srcs).2.isSome = true → (setPrecedence c srcs).1 = c) ∧
    ((srcs.all fun s => isKnownSource s) = true →
      (setPrecedence c srcs).1.options.sources =
        (if srcs.contains sourceDefault then srcs else srcs ++ [sourceDefault]) ∧
      (∀ q item, alookup c.items q = some item →
        alookup (setPrecedence c srcs).1.items q =
          some (ConfigItem.mk item.defaultValue item.values
            (computeValue (if srcs.contains sourceDefault then srcs
              else srcs ++ [sourceDefault]) item))) ∧
      (∀ q, alookup c.items q = none → alookup (setPrecedence c srcs).1.items q = none)) := by
  unfold setPrecedence
  by_cases hall : (srcs.all fun s => isKnownSource s) = true
  · rw [if_pos hall]
    show _ ∧ _ ∧ _
    by_cases heq : c.options.sources =
        (if srcs.contains sourceDefault then srcs else srcs ++ [sourceDefault])
    · rw [if_pos heq]
      refine ⟨?_, ?_, ?_⟩
      · simp [hall]
      · intro h
        simp at h
      · intro _
        refine ⟨heq, ?_, ?_⟩
        · intro q item hq
          rw [hq]
          have hcur := hinv q item hq
          rw [heq] at hcur
          cases item with
          | mk d vals cur =>
            simp only [] at hcur
            rw [← hcur]
        · intro q hq
          exact hq
    · rw [if_neg heq]
      refine ⟨?_, ?_, ?_⟩
      · simp [hall]
      · intro h
        simp at h
      · intro _
        refine ⟨rfl, ?_, ?_⟩
        · intro q item hq
          show alookup (recomputeAll _).items q = _
          unfold recomputeAll
          rw [alookup_recompute, hq]
          rfl
        · intro q hq
          show alookup (recomputeAll _).items q = _
          unfold recomputeAll
          rw [alookup_recompute, hq]
          rfl
  · rw [if_neg hall]
    refine ⟨?_, ?_, ?_⟩
    · simp [hall]
    · intro _
      rfl
    · intro h
      exact absurd h hall

/-- Witness for C9: with a valid one-element list, Default is appended
and the registered item is recomputed under the new list. -/
theorem setPrecedence_spec_witness :
    (setPrecedence ((register newCfg ("p".data) (Value.vInt 1)).1)
        [sourceFile]).1.options.sources = [sourceFile, sourceDefault] := by
  have h := (setPrecedence_spec ((register newCfg ("p".data) (Value.vInt 1)).1) [sourceFile]
      (invariant_register newCfg ("p".data) (Value.vInt 1) invariant_newCfg)).2.2 (by decide)
  rw [h.1]
  decide

/-- C8: Subscribe returns a buffered channel of depth 10; when the
number of existing subscriber channels already equals MaxWatchers, the
next Subscribe call returns a pre-closed channel and registers no new
subscriber, so WatcherCount never exceeds MaxWatchers over any sequence
of subscribe and cleanup steps from the initial watcher state. -/
theorem subscribe_spec (w : WatcherState) :
    (watcherCount w < w.maxWatchers →
      (subscribe w).1 = GoChan.mk 10 false ∧
      (subscribe w).2.watchers = w.watchers ++ [(w.nextId + 1, GoChan.mk 10 false)]) ∧
    (watcherCount w = w.maxWatchers →
      (subscribe w).1 = GoChan.mk 0 true ∧ (subscribe w).2 = w) ∧
    (∀ mw ops, watcherCount (runWatchOps (initialWatcher mw) ops) ≤ mw) := by
  refine ⟨?_, ?_, ?_⟩
  · intro h
    simp only [watcherCount] at h
    unfold subscribe
    rw [if_neg (by omega : ¬(w.watchers.length ≥ w.maxWatchers))]
    exact ⟨rfl, rfl⟩
  · intro h
    simp only [watcherCount] at h
    unfold subscribe
    rw [if_pos (by omega : w.watchers.length ≥ w.maxWatchers)]
    exact ⟨rfl, rfl⟩
  · intro mw ops
    have h := runWatchOps_le ops (initialWatcher mw)
      (by simp [watcherCount, initialWatcher])
    exact h.1

/-- Witness for C8 with MaxWatchers one: the first Subscribe returns a
fresh channel of depth 10, the second returns a pre-closed channel and
changes nothing, and three subscribes leave the count at most one. -/
theorem subscribe_spec_witness :
    (subscribe (initialWatcher 1)).1 = GoChan.mk 10 false ∧
    (subscribe (subscribe (initialWatcher 1)).2).1 = GoChan.mk 0 true ∧
    (subscribe (subscribe (initialWatcher 1)).2).2 = (subscribe (initialWatcher 1)).2 ∧
    watcherCount (runWatchOps (initialWatcher 1) [WatchOp.sub, WatchOp.sub, WatchOp.sub]) ≤ 1 :=
  ⟨((subscribe_spec (initialWatcher 1)).1 (by decide)).1,
   ((subscribe_spec ((subscribe (initialWatcher 1)).2)).2.1 (by decide)).1,
   ((subscribe_spec ((subscribe (initialWatcher 1)).2)).2.1 (by decide)).2,
   (subscribe_spec (initialWatcher 1)).2.2 1 [WatchOp.sub, WatchOp.sub, WatchOp.sub]⟩

/-- C7 counterexample: a registered nil value at the base path is a
present non-map value, yet decoding succeeds with a zeroed target
instead of returning an error. -/
theorem unmarshal_nil_counterexample :
    resolvesTo [("a".data, Value.vNil)] ("a".data) = some Value.vNil ∧
    unmarshalSection [FieldSpec.mk ("x".data) (Value.vInt 0)] [("a".data, Value.vNil)]
      ("a".data) = Except.ok [("x".data, Value.vInt 0)] :=
  ⟨rfl, rfl⟩

/-- C7 amended: with a non-empty basePath, a path resolving to a value
that is neither a map nor nil yields an error; an absent path, or a
path resolving to nil, decodes successfully with every target field
zero. -/
theorem unmarshal_amended (fields : List FieldSpec) (nested : GoMap) (basePath : GoStr)
    (_hne : basePath ≠ []) :
    (∀ v, resolvesTo nested basePath = some v → (∀ m, ¬(v = Value.vMap m)) →
      ¬(v = Value.vNil) →
      unmarshalSection fields nested basePath =
        Except.error ("refers to non-map value".data)) ∧
    (resolvesTo nested basePath = none →
      unmarshalSection fields nested basePath =
        Except.ok (fields.map fun f => (f.key, f.zeroVal))) ∧
    (resolvesTo nested basePath = some Value.vNil →
      unmarshalSection fields nested basePath =
        Except.ok (fields.map fun f => (f.key, f.zeroVal))) := by
  have hdecode : decodeModel fields [] = fields.map fun f => (f.key, f.zeroVal) := by
    unfold decodeModel
    rw [show (fun f : FieldSpec => (f.key, (alookup [] f.key).getD f.zeroVal))
      = (fun f : FieldSpec => (f.key, f.zeroVal)) from funext fun f => rfl]
  refine ⟨?_, ?_, ?_⟩
  · intro v hres hm hn
    unfold unmarshalSection
    rw [navigateToPath_eq_resolvesTo, hres]
    cases v with
    | vNil => exact absurd rfl hn
    | vMap m => exact absurd rfl (hm m)
    | vStr s => rfl
    | vBool b => rfl
    | vInt n => rfl
  · intro hres
    unfold unmarshalSection
    rw [navigateToPath_eq_resolvesTo, hres]
    show Except.ok (decodeModel fields []) = _
    rw [hdecode]
  · intro hres
    unfold unmarshalSection
    rw [navigateToPath_eq_resolvesTo, hres]
    show Except.ok (decodeModel fields []) = _
    rw [hdecode]

/-- Witness for C7 amended: decoding at an absent base path succeeds
and produces the zero value for every field. -/
theorem unmarshal_amended_witness :
    unmarshalSection [FieldSpec.mk ("x".data) (Value.vInt 0)] [("a".data, Value.vInt 5)]
      ("b".data) = Except.ok [("x".data, Value.vInt 0)] :=
  (unmarshal_amended [FieldSpec.mk ("x".data) (Value.vInt 0)] [("a".data, Value.vInt 5)]
    ("b".data) (by decide)).2.1 rfl

/-- C5 counterexample: loadFile applies entries one by one and on the
first oversize value returns an error while keeping entries applied
earlier in the same submission (no rollback: path a gains a SourceFile
entry it did not have before); and loadCLI stores an oversize string
with no size check. -/
theorem load_oversize_counterexample :
    ((loadFileApply ((register ((register newCfg ("a".data) (Value.vInt 1)).1)
        ("b".data) (Value.vInt 2)).1)
        [(("a".data), Value.vStr ("x".data)), (("b".data), Value.vStr bigStr)]).2.isSome = true ∧
     alookup ((register ((register newCfg ("a".data) (Value.vInt 1)).1)
        ("b".data) (Value.vInt 2)).1).items ("a".data) =
       some (ConfigItem.mk (Value.vInt 1) [] (Value.vInt 1)) ∧
     alookup (loadFileApply ((register ((register newCfg ("a".data) (Value.vInt 1)).1)
        ("b".data) (Value.vInt 2)).1)
        [(("a".data), Value.vStr ("x".data)), (("b".data), Value.vStr bigStr)]).1.items
        ("a".data) =
       some (ConfigItem.mk (Value.vInt 1) [(sourceFile, Value.vStr ("x".data))]
         (Value.vStr ("x".data)))) ∧
    (alookup (loadCLI ((register newCfg ("p".data) (Value.vInt 1)).1)
        ["--p".data, bigStr]).1.items ("p".data) =
       some (ConfigItem.mk (Value.vInt 1) [(sourceCLI, Value.vStr bigStr)]
         (Value.vStr bigStr)) ∧
     maxValueSize < bigStr.length) := by
  have h1 : loadFileApply ((register ((register newCfg ("a".data)
      (Value.vInt 1)).1) ("b".data) (Value.vInt 2)).1)
      [(("a".data), Value.vStr ("x".data)), (("b".data), Value.vStr bigStr)] =
      (Cfg.mk [(("a".data), ConfigItem.mk (Value.vInt 1)
          [(sourceFile, Value.vStr ("x".data))] (Value.vStr ("x".data))),
        (("b".data), ConfigItem.mk (Value.vInt 2) [] (Value.vInt 2))]
        defaultLoadOptions
        [(("a".data), Value.vStr ("x".data)), (("b".data), Value.vStr bigStr)] [] [],
       some errValueSize) := by
    unfold loadFileApply
    rw [applyFileEntries_store_step _ ("a".data) (Value.vStr ("x".data)) _
        (ConfigItem.mk (Value.vInt 1) [] (Value.vInt 1)) (by rfl) (by rfl)]
    rw [applyFileEntries_oversize_step _ ("b".data) (Value.vStr bigStr) []
        (ConfigItem.mk (Value.vInt 2) [] (Value.vInt 2)) (by rfl) isOversizeStr_bigStr]
    rfl
  have hparse : parseArgs ["--p".data, bigStr] =
      Except.ok [(("p".data), Value.vStr bigStr)] := rfl
  have hflat : flattenMap [(("p".data), Value.vStr bigStr)] [] =
      [(("p".data), Value.vStr bigStr)] := by
    simp [flattenMap]
  have hcli : loadCLI ((register newCfg ("p".data) (Value.vInt 1)).1) ["--p".data, bigStr] =
      (applyCLIEntries (Cfg.mk [(("p".data), ConfigItem.mk (Value.vInt 1) [] (Value.vInt 1))]
        defaultLoadOptions [] [] [(("p".data), Value.vStr bigStr)])
        [(("p".data), Value.vStr bigStr)], none) := by
    simp only [loadCLI, hparse, hflat]
    rfl
  rw [h1, hcli]
  exact ⟨⟨rfl, rfl, rfl⟩, rfl, bigStr_oversize⟩

/-- C5 amended: SetSource rejects an oversize string value and leaves
the registry unchanged, and the loadFile application loop never stores
an oversize string into the item map; however, the failing loadFile
keeps entries applied earlier in the same submission, and loadCLI
applies values without any size check (both shown by the
counterexample). -/
theorem size_rejection :
    (∀ c source path s, maxValueSize < s.length →
      (setSource c source path (Value.vStr s)).1 = c ∧
      (setSource c source path (Value.vStr s)).2.isSome = true) ∧
    (∀ c entries, NoOversize c → NoOversize (loadFileApply c entries).1) := by
  constructor
  · intro c source path s h
    have hov : isOversizeStr (Value.vStr s) = true := by
      simp only [isOversizeStr, gt_iff_lt, decide_eq_true_eq]
      exact h
    cases hl : alookup c.items path with
    | none =>
      constructor
      · simp [setSource, hl]
      · simp [setSource, hl]
    | some item =>
      constructor
      · simp [setSource, hl, hov]
      · simp [setSource, hl, hov]
  · intro c entries h
    exact applyFileEntries_preserves entries { c with fileData := entries } h

/-- Witness for C5 amended: SetSource on a fresh registry rejects the
oversize string unchanged, and loadFile on an empty submission
preserves the no-oversize property. -/
theorem size_rejection_witness :
    (setSource newCfg sourceFile ("p".data) (Value.vStr bigStr)).1 = newCfg ∧
    (setSource newCfg sourceFile ("p".data) (Value.vStr bigStr)).2.isSome = true ∧
    NoOversize (loadFileApply newCfg []).1 :=
  ⟨(size_rejection.1 newCfg sourceFile ("p".data) bigStr bigStr_oversize).1,
   (size_rejection.1 newCfg sourceFile ("p".data) bigStr bigStr_oversize).2,
   size_rejection.2 newCfg [] (by intro p it hlook; exact Option.noConfusion hlook)⟩

/-- C10: Set reads the first element of options.Sources without a
guard: with a non-empty precedence list it returns exactly SetSource of
the head source, and with an empty list it faults (the index panic is
modelled as the result none). -/
theorem set_head_source (c : Cfg) (path : GoStr) (v : Value) :
    (∀ s rest, c.options.sources = s :: rest → set c path v = some (setSource c s path v)) ∧
    (c.options.sources = [] → set c path v = none) := by
  constructor
  · intro s rest h
    unfold set
    rw [h]
  · intro h
    unfold set
    rw [h]

/-- Witness for C10: with default options Set delegates to SetSource
with SourceCLI, and with an empty source list Set faults. -/
theorem set_head_source_witness :
    set newCfg ("p".data) Value.vNil = some (setSource newCfg sourceCLI ("p".data) Value.vNil) ∧
    set (Cfg.mk [] (LoadOptions.mk []) [] [] []) ("p".data) Value.vNil = none :=
  ⟨(set_head_source newCfg ("p".data) Value.vNil).1 sourceCLI
      [sourceEnv, sourceFile, sourceDefault] rfl,
   (set_head_source (Cfg.mk [] (LoadOptions.mk []) [] [] []) ("p".data) Value.vNil).2 rfl⟩

end Config
